import Mathlib

/-!
Verification of the wire-level message layer of the rust-bitcoin snapshot:
the structured payload codec in network/message_blockdata.rs and the stream
reassembly engine in network/stream_reader.rs.

Byte streams are modelled as lists of natural numbers (each byte a value
below 256 on real wires); fixed-width integers are natural numbers with
explicit bounds where overflow matters.  Fallible decoding is explicit:
a decoder either succeeds with the value and the unconsumed remainder of
its input, fails with a recoverable error, or panics (modelling a Rust
process abort, which the inventory decoder performs on unrecognized tags).
-/

/-- The error kind carried by an io error, mirroring io::ErrorKind as far as
the code under verification inspects it: the one distinguished kind is
UnexpectedEof, which the stream reader treats as the incomplete-data
condition. -/
inductive IoKind
  | unexpectedEof
  | otherKind (code : Nat)
deriving DecidableEq

/-- Mirrors consensus/encode Error as far as the code under verification
inspects it: an io error with a kind, or any other (malformed-data) decode
error carried with a message. -/
inductive EncodeError
  | ioError (k : IoKind)
  | parseFailed (msg : String)
deriving DecidableEq

/-- Outcome of running a payload decoder on a byte list: success with the
decoded value and the unconsumed rest, a recoverable decode error, or a
process panic (Rust panics are a distinct observable outcome, not an
error value the caller can handle). -/
inductive DecOutcome (α : Type)
  | ok (val : α) (rest : List Nat)
  | err (e : EncodeError)
  | panic (msg : String)
deriving DecidableEq

/-- Sequencing of decoders: on success continue with the value and the
rest of the input; errors and panics short-circuit. -/
def DecOutcome.bind {α β : Type} : DecOutcome α → (α → List Nat → DecOutcome β) → DecOutcome β
  | .ok v rest, f => f v rest
  | .err e, _ => .err e
  | .panic m, _ => .panic m

/-- Modelled from the spec: fixed-width 4-byte unsigned integers are written
little-endian (the u32 ConsensusEncodable impl is outside the provided
sources; spec section 4.1 fixes the byte order and width). -/
def u32ToBytes (n : Nat) : List Nat :=
  [n % 256, n / 256 % 256, n / 65536 % 256, n / 16777216 % 256]

/-- Modelled from the spec: 8-byte little-endian unsigned integer, used by
the compact-size convention for large counts. -/
def u64ToBytes (n : Nat) : List Nat :=
  [n % 256, n / 256 % 256, n / 65536 % 256, n / 16777216 % 256,
   n / 4294967296 % 256, n / 1099511627776 % 256,
   n / 281474976710656 % 256, n / 72057594037927936 % 256]

/-- Modelled from the spec: little-endian u32 decoder; fewer than four
bytes available is the incomplete-data condition. -/
def decodeU32le : List Nat → DecOutcome Nat
  | b0 :: b1 :: b2 :: b3 :: rest =>
      .ok (b0 + 256 * b1 + 65536 * b2 + 16777216 * b3) rest
  | _ => .err (.ioError .unexpectedEof)

/-- Modelled from the spec: little-endian u16 decoder (compact-size middle
form). -/
def decodeU16le : List Nat → DecOutcome Nat
  | b0 :: b1 :: rest => .ok (b0 + 256 * b1) rest
  | _ => .err (.ioError .unexpectedEof)

/-- Modelled from the spec: little-endian u64 decoder (compact-size large
form). -/
def decodeU64le : List Nat → DecOutcome Nat
  | b0 :: b1 :: b2 :: b3 :: b4 :: b5 :: b6 :: b7 :: rest =>
      .ok (b0 + 256 * b1 + 65536 * b2 + 16777216 * b3 + 4294967296 * b4 +
           1099511627776 * b5 + 281474976710656 * b6 + 72057594037927936 * b7) rest
  | _ => .err (.ioError .unexpectedEof)

/-- Modelled from the spec: 1-byte unsigned integer decoder. -/
def decodeU8 : List Nat → DecOutcome Nat
  | b :: rest => .ok b rest
  | [] => .err (.ioError .unexpectedEof)

/-- Modelled from the spec: the compact variable-length count encoding (the
protocol compact-size convention): one byte below 253, otherwise a marker
byte 253/254/255 followed by a 2-, 4- or 8-byte little-endian integer. -/
def compactSize (n : Nat) : List Nat :=
  if n < 253 then [n]
  else if n < 65536 then 253 :: [n % 256, n / 256 % 256]
  else if n < 4294967296 then 254 :: u32ToBytes n
  else 255 :: u64ToBytes n

/-- Modelled from the spec: decoder for the compact variable-length count. -/
def decodeCompactSize : List Nat → DecOutcome Nat
  | [] => .err (.ioError .unexpectedEof)
  | b :: rest =>
    if b < 253 then .ok b rest
    else if b = 253 then decodeU16le rest
    else if b = 254 then decodeU32le rest
    else decodeU64le rest

/-- A 32-byte content hash (Sha256dHash): its wire form is its raw 32 bytes,
unmodified. -/
abbrev Sha256dHash := { l : List Nat // l.length = 32 }

/-- Modelled from the spec: a fixed-width hash field is read as its raw
32 -byte content; fewer than 32 bytes available is incomplete data. -/
def decodeHash (l : List Nat) : DecOutcome Sha256dHash :=
  if h : 32 ≤ l.length then
    .ok ⟨l.take 32, by simp [List.length_take]; omega⟩ (l.drop 32)
  else .err (.ioError .unexpectedEof)

/-- The all-zero hash (the "no stop" convention value). -/
def zeroHash : Sha256dHash := ⟨List.replicate 32 0, by simp⟩

/-- Modelled from the spec: a vector of hashes is encoded as a compact-size
count followed by the raw hashes in order. -/
def encodeHashes (hs : List Sha256dHash) : List Nat :=
  compactSize hs.length ++ List.flatten (hs.map Subtype.val)

/-- Modelled from the spec: decode exactly n consecutive 32-byte hashes. -/
def decodeHashesN : Nat → List Nat → DecOutcome (List Sha256dHash)
  | 0, l => .ok [] l
  | n + 1, l =>
    DecOutcome.bind (decodeHash l) fun h r =>
      DecOutcome.bind (decodeHashesN n r) fun hs r2 => .ok (h :: hs) r2

/-- Modelled from the spec: decode a hash vector (compact-size count, then
that many hashes). -/
def decodeVecHash (l : List Nat) : DecOutcome (List Sha256dHash) :=
  DecOutcome.bind (decodeCompactSize l) fun n r => decodeHashesN n r

/-- Modelled from the spec: a byte blob is encoded as a compact-size count
followed by the raw bytes. -/
def encodeVecU8 (v : List Nat) : List Nat :=
  compactSize v.length ++ v

/-- Modelled from the spec: decode a byte blob (compact-size count, then
that many raw bytes). -/
def decodeVecU8 (l : List Nat) : DecOutcome (List Nat) :=
  DecOutcome.bind (decodeCompactSize l) fun n r =>
    if n ≤ r.length then .ok (r.take n) (r.drop n)
    else .err (.ioError .unexpectedEof)

/-- The type of an inventory object (enum InvType in
network/message_blockdata.rs). -/
inductive InvType
  | Error
  | Transaction
  | Block
  | WitnessBlock
  | WitnessTransaction
deriving DecidableEq

/-- An inventory object: a reference to a Bitcoin object. -/
structure Inventory where
  inv_type : InvType
  hash : Sha256dHash
deriving DecidableEq

/-- The tag written for each inventory kind, from the match in
Inventory::consensus_encode. -/
def invTypeCode : InvType → Nat
  | .Error => 0
  | .Transaction => 1
  | .Block => 2
  | .WitnessBlock => 0x40000002
  | .WitnessTransaction => 0x40000001

/-- Inventory::consensus_encode: the kind tag as a 4-byte little-endian
integer, then the raw 32-byte hash. -/
def Inventory.consensus_encode (i : Inventory) : List Nat :=
  u32ToBytes (invTypeCode i.inv_type) ++ i.hash.val

/-- Inventory::consensus_decode: read the 4-byte tag, map 0/1/2 to
Error/Transaction/Block, panic on any other value (the source literally
panics: `_ => { panic... ("bad inventory type field") }`), then read the
hash. -/
def Inventory.consensus_decode (l : List Nat) : DecOutcome Inventory :=
  DecOutcome.bind (decodeU32le l) fun int_type r =>
    match int_type with
    | 0 => DecOutcome.bind (decodeHash r) fun h r2 => .ok ⟨InvType.Error, h⟩ r2
    | 1 => DecOutcome.bind (decodeHash r) fun h r2 => .ok ⟨InvType.Transaction, h⟩ r2
    | 2 => DecOutcome.bind (decodeHash r) fun h r2 => .ok ⟨InvType.Block, h⟩ r2
    | _ => .panic "bad inventory type field"


/-- The getblocks message. -/
structure GetBlocksMessage where
  version : Nat
  locator_hashes : List Sha256dHash
  stop_hash : Sha256dHash
deriving DecidableEq

/-- The getheaders message. -/
structure GetHeadersMessage where
  version : Nat
  locator_hashes : List Sha256dHash
  stop_hash : Sha256dHash
deriving DecidableEq

/-- BIP157 getcfilters message. -/
structure GetFiltersMessage where
  filter_type : Nat
  start_height : Nat
  stop_hash : Sha256dHash
deriving DecidableEq

/-- BIP157 getcfheaders message. -/
structure GetFilterHeadersMessage where
  filter_type : Nat
  block_hash : Sha256dHash
  stop_hash : Sha256dHash
deriving DecidableEq

/-- BIP157 cfilter message. -/
structure FilterMessage where
  filter_type : Nat
  block_hash : Sha256dHash
  content : List Nat
deriving DecidableEq

/-- BIP157 cfheaders message. -/
structure FilterHeadersMessage where
  filter_type : Nat
  stop_hash : Sha256dHash
  previous_hash : Sha256dHash
  headers : List Sha256dHash
deriving DecidableEq

/-- BIP157 getcfcheckpt message. -/
structure GetFilterCheckpointsMessage where
  filter_type : Nat
  stop_hash : Sha256dHash
deriving DecidableEq

/-- BIP157 cfcheckpt message. -/
structure FilterCheckpointsMessage where
  filter_type : Nat
  stop_hash : Sha256dHash
  headers : List Sha256dHash
deriving DecidableEq

/-- Expansion of impl_consensus_encoding for GetBlocksMessage (fields in
declared order: version, locator_hashes, stop_hash); the macro body is
modelled from the spec (fields serialize in the fixed declared order). -/
def GetBlocksMessage.consensus_encode (m : GetBlocksMessage) : List Nat :=
  u32ToBytes m.version ++ encodeHashes m.locator_hashes ++ m.stop_hash.val

/-- Decoder for GetBlocksMessage, fields in declared order. -/
def GetBlocksMessage.consensus_decode (l : List Nat) : DecOutcome GetBlocksMessage :=
  DecOutcome.bind (decodeU32le l) fun v r1 =>
    DecOutcome.bind (decodeVecHash r1) fun hs r2 =>
      DecOutcome.bind (decodeHash r2) fun stop r3 =>
        .ok ⟨v, hs, stop⟩ r3

/-- Expansion of impl_consensus_encoding for GetHeadersMessage. -/
def GetHeadersMessage.consensus_encode (m : GetHeadersMessage) : List Nat :=
  u32ToBytes m.version ++ encodeHashes m.locator_hashes ++ m.stop_hash.val

/-- Decoder for GetHeadersMessage. -/
def GetHeadersMessage.consensus_decode (l : List Nat) : DecOutcome GetHeadersMessage :=
  DecOutcome.bind (decodeU32le l) fun v r1 =>
    DecOutcome.bind (decodeVecHash r1) fun hs r2 =>
      DecOutcome.bind (decodeHash r2) fun stop r3 =>
        .ok ⟨v, hs, stop⟩ r3

/-- Expansion of impl_consensus_encoding for GetFiltersMessage
(filter_type, start_height, stop_hash). -/
def GetFiltersMessage.consensus_encode (m : GetFiltersMessage) : List Nat :=
  [m.filter_type] ++ u32ToBytes m.start_height ++ m.stop_hash.val

/-- Decoder for GetFiltersMessage. -/
def GetFiltersMessage.consensus_decode (l : List Nat) : DecOutcome GetFiltersMessage :=
  DecOutcome.bind (decodeU8 l) fun t r1 =>
    DecOutcome.bind (decodeU32le r1) fun h r2 =>
      DecOutcome.bind (decodeHash r2) fun stop r3 =>
        .ok ⟨t, h, stop⟩ r3

/-- Expansion of impl_consensus_encoding for GetFilterHeadersMessage
(filter_type, block_hash, stop_hash). -/
def GetFilterHeadersMessage.consensus_encode (m : GetFilterHeadersMessage) : List Nat :=
  [m.filter_type] ++ m.block_hash.val ++ m.stop_hash.val

/-- Decoder for GetFilterHeadersMessage. -/
def GetFilterHeadersMessage.consensus_decode (l : List Nat) : DecOutcome GetFilterHeadersMessage :=
  DecOutcome.bind (decodeU8 l) fun t r1 =>
    DecOutcome.bind (decodeHash r1) fun bh r2 =>
      DecOutcome.bind (decodeHash r2) fun stop r3 =>
        .ok ⟨t, bh, stop⟩ r3

/-- Expansion of impl_consensus_encoding for FilterMessage
(filter_type, block_hash, content). -/
def FilterMessage.consensus_encode (m : FilterMessage) : List Nat :=
  [m.filter_type] ++ m.block_hash.val ++ encodeVecU8 m.content

/-- Decoder for FilterMessage. -/
def FilterMessage.consensus_decode (l : List Nat) : DecOutcome FilterMessage :=
  DecOutcome.bind (decodeU8 l) fun t r1 =>
    DecOutcome.bind (decodeHash r1) fun bh r2 =>
      DecOutcome.bind (decodeVecU8 r2) fun c r3 =>
        .ok ⟨t, bh, c⟩ r3

/-- Expansion of impl_consensus_encoding for FilterHeadersMessage
(filter_type, stop_hash, previous_hash, headers). -/
def FilterHeadersMessage.consensus_encode (m : FilterHeadersMessage) : List Nat :=
  [m.filter_type] ++ m.stop_hash.val ++ m.previous_hash.val ++ encodeHashes m.headers

/-- Decoder for FilterHeadersMessage. -/
def FilterHeadersMessage.consensus_decode (l : List Nat) : DecOutcome FilterHeadersMessage :=
  DecOutcome.bind (decodeU8 l) fun t r1 =>
    DecOutcome.bind (decodeHash r1) fun stop r2 =>
      DecOutcome.bind (decodeHash r2) fun prev r3 =>
        DecOutcome.bind (decodeVecHash r3) fun hs r4 =>
          .ok ⟨t, stop, prev, hs⟩ r4

/-- Expansion of impl_consensus_encoding for GetFilterCheckpointsMessage
(filter_type, stop_hash). -/
def GetFilterCheckpointsMessage.consensus_encode (m : GetFilterCheckpointsMessage) : List Nat :=
  [m.filter_type] ++ m.stop_hash.val

/-- Decoder for GetFilterCheckpointsMessage. -/
def GetFilterCheckpointsMessage.consensus_decode (l : List Nat) :
    DecOutcome GetFilterCheckpointsMessage :=
  DecOutcome.bind (decodeU8 l) fun t r1 =>
    DecOutcome.bind (decodeHash r1) fun stop r2 =>
      .ok ⟨t, stop⟩ r2

/-- Expansion of impl_consensus_encoding for FilterCheckpointsMessage
(filter_type, stop_hash, headers). -/
def FilterCheckpointsMessage.consensus_encode (m : FilterCheckpointsMessage) : List Nat :=
  [m.filter_type] ++ m.stop_hash.val ++ encodeHashes m.headers

/-- Decoder for FilterCheckpointsMessage. -/
def FilterCheckpointsMessage.consensus_decode (l : List Nat) : DecOutcome FilterCheckpointsMessage :=
  DecOutcome.bind (decodeU8 l) fun t r1 =>
    DecOutcome.bind (decodeHash r1) fun stop r2 =>
      DecOutcome.bind (decodeVecHash r2) fun hs r3 =>
        .ok ⟨t, stop, hs⟩ r3

/-- Pair a decoder result with the number of consumed bytes, as
deserialize_partial reports it: the decoded value together with the index
one past the last consumed byte. -/
def decodeWithCount {α : Type} (dec : List Nat → DecOutcome α) (l : List Nat) :
    DecOutcome (α × Nat) :=
  match dec l with
  | .ok v rest => .ok (v, l.length - rest.length) rest
  | .err e => .err e
  | .panic m => .panic m

/-- Validity of a GetBlocksMessage as an in-memory Rust value: the version
fits in a u32 and the locator count fits in a u64 (vector lengths always
do on a real machine). -/
def GetBlocksMessage.Valid (m : GetBlocksMessage) : Prop :=
  m.version < 4294967296 ∧ m.locator_hashes.length < 18446744073709551616

/-- Validity of a GetHeadersMessage as an in-memory Rust value. -/
def GetHeadersMessage.Valid (m : GetHeadersMessage) : Prop :=
  m.version < 4294967296 ∧ m.locator_hashes.length < 18446744073709551616

/-- Validity of a GetFiltersMessage: filter_type fits in a u8,
start_height in a u32. -/
def GetFiltersMessage.Valid (m : GetFiltersMessage) : Prop :=
  m.filter_type < 256 ∧ m.start_height < 4294967296

/-- Validity of a GetFilterHeadersMessage. -/
def GetFilterHeadersMessage.Valid (m : GetFilterHeadersMessage) : Prop :=
  m.filter_type < 256

/-- Validity of a FilterMessage. -/
def FilterMessage.Valid (m : FilterMessage) : Prop :=
  m.filter_type < 256 ∧ m.content.length < 18446744073709551616

/-- Validity of a FilterHeadersMessage. -/
def FilterHeadersMessage.Valid (m : FilterHeadersMessage) : Prop :=
  m.filter_type < 256 ∧ m.headers.length < 18446744073709551616

/-- Validity of a GetFilterCheckpointsMessage. -/
def GetFilterCheckpointsMessage.Valid (m : GetFilterCheckpointsMessage) : Prop :=
  m.filter_type < 256

/-- Validity of a FilterCheckpointsMessage. -/
def FilterCheckpointsMessage.Valid (m : FilterCheckpointsMessage) : Prop :=
  m.filter_type < 256 ∧ m.headers.length < 18446744073709551616

lemma decodeU32le_append (n : Nat) (hn : n < 4294967296) (r : List Nat) :
    decodeU32le (u32ToBytes n ++ r) = .ok n r := by
  simp only [u32ToBytes, List.cons_append, List.nil_append, decodeU32le]
  have : n % 256 + 256 * (n / 256 % 256) + 65536 * (n / 65536 % 256) +
      16777216 * (n / 16777216 % 256) = n := by omega
  rw [this]

lemma decodeU64le_append (n : Nat) (hn : n < 18446744073709551616) (r : List Nat) :
    decodeU64le (u64ToBytes n ++ r) = .ok n r := by
  simp only [u64ToBytes, List.cons_append, List.nil_append, decodeU64le]
  have : n % 256 + 256 * (n / 256 % 256) + 65536 * (n / 65536 % 256) +
      16777216 * (n / 16777216 % 256) + 4294967296 * (n / 4294967296 % 256) +
      1099511627776 * (n / 1099511627776 % 256) +
      281474976710656 * (n / 281474976710656 % 256) +
      72057594037927936 * (n / 72057594037927936 % 256) = n := by omega
  rw [this]

lemma decodeU8_append (b : Nat) (r : List Nat) :
    decodeU8 ([b] ++ r) = .ok b r := rfl

lemma decodeHash_append (h : Sha256dHash) (r : List Nat) :
    decodeHash (h.val ++ r) = .ok h r := by
  have hlen : h.val.length = 32 := h.property
  unfold decodeHash
  rw [dif_pos (by simp [List.length_append, hlen])]
  have htake : (h.val ++ r).take 32 = h.val := List.take_left' hlen
  have hdrop : (h.val ++ r).drop 32 = r := List.drop_left' hlen
  rw [hdrop]
  congr 1
  exact Subtype.ext htake

lemma decodeCompactSize_append (n : Nat) (hn : n < 18446744073709551616) (r : List Nat) :
    decodeCompactSize (compactSize n ++ r) = .ok n r := by
  unfold compactSize
  by_cases h1 : n < 253
  · rw [if_pos h1]
    simp only [List.cons_append, List.nil_append, decodeCompactSize]
    rw [if_pos h1]
  · rw [if_neg h1]
    by_cases h2 : n < 65536
    · rw [if_pos h2]
      simp only [List.cons_append, List.nil_append, decodeCompactSize]
      rw [if_neg (by omega), if_pos trivial]
      simp only [decodeU16le]
      have : n % 256 + 256 * (n / 256 % 256) = n := by omega
      rw [this]
    · rw [if_neg h2]
      by_cases h3 : n < 4294967296
      · rw [if_pos h3]
        simp only [List.cons_append, decodeCompactSize]
        rw [if_neg (by omega), if_neg (by omega), if_pos trivial]
        exact decodeU32le_append n h3 r
      · rw [if_neg h3]
        simp only [List.cons_append, decodeCompactSize]
        rw [if_neg (by omega), if_neg (by omega), if_neg (by omega)]
        exact decodeU64le_append n hn r

lemma decodeHashesN_append (hs : List Sha256dHash) (r : List Nat) :
    decodeHashesN hs.length (List.flatten (hs.map Subtype.val) ++ r) = .ok hs r := by
  induction hs generalizing r with
  | nil => rfl
  | cons h t ih =>
    simp only [List.length_cons, List.map_cons, List.flatten_cons, List.append_assoc,
      decodeHashesN]
    rw [decodeHash_append h]
    simp only [DecOutcome.bind]
    rw [ih r]

lemma decodeVecHash_append (hs : List Sha256dHash)
    (hn : hs.length < 18446744073709551616) (r : List Nat) :
    decodeVecHash (encodeHashes hs ++ r) = .ok hs r := by
  unfold decodeVecHash encodeHashes
  rw [List.append_assoc, decodeCompactSize_append _ hn]
  simp only [DecOutcome.bind]
  exact decodeHashesN_append hs r

lemma decodeVecU8_append (v : List Nat)
    (hn : v.length < 18446744073709551616) (r : List Nat) :
    decodeVecU8 (encodeVecU8 v ++ r) = .ok v r := by
  unfold decodeVecU8 encodeVecU8
  rw [List.append_assoc, decodeCompactSize_append _ hn]
  simp only [DecOutcome.bind]
  rw [if_pos (by simp), List.take_left, List.drop_left]

lemma inventory_decode_encode (i : Inventory)
    (hbase : i.inv_type = InvType.Error ∨ i.inv_type = InvType.Transaction ∨
      i.inv_type = InvType.Block) (r : List Nat) :
    Inventory.consensus_decode (i.consensus_encode ++ r) = .ok i r := by
  obtain ⟨t, hsh⟩ := i
  simp only at hbase
  unfold Inventory.consensus_encode Inventory.consensus_decode
  rcases hbase with h | h | h <;> subst h <;>
    · simp only [invTypeCode]
      rw [List.append_assoc, decodeU32le_append _ (by norm_num)]
      simp only [DecOutcome.bind]
      rw [decodeHash_append]

lemma getBlocksMessage_decode_encode (m : GetBlocksMessage) (h : m.Valid) (r : List Nat) :
    GetBlocksMessage.consensus_decode (m.consensus_encode ++ r) = .ok m r := by
  obtain ⟨h1, h2⟩ := h
  unfold GetBlocksMessage.consensus_encode GetBlocksMessage.consensus_decode
  rw [List.append_assoc, List.append_assoc, decodeU32le_append _ h1]
  simp only [DecOutcome.bind]
  rw [decodeVecHash_append _ h2]
  simp only [DecOutcome.bind]
  rw [decodeHash_append]

lemma getHeadersMessage_decode_encode (m : GetHeadersMessage) (h : m.Valid) (r : List Nat) :
    GetHeadersMessage.consensus_decode (m.consensus_encode ++ r) = .ok m r := by
  obtain ⟨h1, h2⟩ := h
  unfold GetHeadersMessage.consensus_encode GetHeadersMessage.consensus_decode
  rw [List.append_assoc, List.append_assoc, decodeU32le_append _ h1]
  simp only [DecOutcome.bind]
  rw [decodeVecHash_append _ h2]
  simp only [DecOutcome.bind]
  rw [decodeHash_append]

lemma getFiltersMessage_decode_encode (m : GetFiltersMessage) (h : m.Valid) (r : List Nat) :
    GetFiltersMessage.consensus_decode (m.consensus_encode ++ r) = .ok m r := by
  obtain ⟨_, h2⟩ := h
  unfold GetFiltersMessage.consensus_encode GetFiltersMessage.consensus_decode
  rw [List.append_assoc, List.append_assoc, decodeU8_append]
  simp only [DecOutcome.bind]
  rw [decodeU32le_append _ h2]
  simp only [DecOutcome.bind]
  rw [decodeHash_append]

lemma getFilterHeadersMessage_decode_encode (m : GetFilterHeadersMessage) (r : List Nat) :
    GetFilterHeadersMessage.consensus_decode (m.consensus_encode ++ r) = .ok m r := by
  unfold GetFilterHeadersMessage.consensus_encode GetFilterHeadersMessage.consensus_decode
  rw [List.append_assoc, List.append_assoc, decodeU8_append]
  simp only [DecOutcome.bind]
  rw [decodeHash_append]
  simp only [DecOutcome.bind]
  rw [decodeHash_append]

lemma filterMessage_decode_encode (m : FilterMessage) (h : m.Valid) (r : List Nat) :
    FilterMessage.consensus_decode (m.consensus_encode ++ r) = .ok m r := by
  obtain ⟨_, h2⟩ := h
  unfold FilterMessage.consensus_encode FilterMessage.consensus_decode
  rw [List.append_assoc, List.append_assoc, decodeU8_append]
  simp only [DecOutcome.bind]
  rw [decodeHash_append]
  simp only [DecOutcome.bind]
  rw [decodeVecU8_append _ h2]

lemma filterHeadersMessage_decode_encode (m : FilterHeadersMessage) (h : m.Valid) (r : List Nat) :
    FilterHeadersMessage.consensus_decode (m.consensus_encode ++ r) = .ok m r := by
  obtain ⟨_, h2⟩ := h
  unfold FilterHeadersMessage.consensus_encode FilterHeadersMessage.consensus_decode
  rw [List.append_assoc, List.append_assoc, List.append_assoc, decodeU8_append]
  simp only [DecOutcome.bind]
  rw [decodeHash_append]
  simp only [DecOutcome.bind]
  rw [decodeHash_append]
  simp only [DecOutcome.bind]
  rw [decodeVecHash_append _ h2]

lemma getFilterCheckpointsMessage_decode_encode (m : GetFilterCheckpointsMessage) (r : List Nat) :
    GetFilterCheckpointsMessage.consensus_decode (m.consensus_encode ++ r) = .ok m r := by
  unfold GetFilterCheckpointsMessage.consensus_encode GetFilterCheckpointsMessage.consensus_decode
  rw [List.append_assoc, decodeU8_append]
  simp only [DecOutcome.bind]
  rw [decodeHash_append]

lemma filterCheckpointsMessage_decode_encode (m : FilterCheckpointsMessage) (h : m.Valid) (r : List Nat) :
    FilterCheckpointsMessage.consensus_decode (m.consensus_encode ++ r) = .ok m r := by
  obtain ⟨_, h2⟩ := h
  unfold FilterCheckpointsMessage.consensus_encode FilterCheckpointsMessage.consensus_decode
  rw [List.append_assoc, List.append_assoc, decodeU8_append]
  simp only [DecOutcome.bind]
  rw [decodeHash_append]
  simp only [DecOutcome.bind]
  rw [decodeVecHash_append _ h2]

lemma decodeWithCount_of_ok {α : Type} (dec : List Nat → DecOutcome α) (l : List Nat)
    (v : α) (hdec : dec l = .ok v []) :
    decodeWithCount dec l = .ok (v, l.length) [] := by
  unfold decodeWithCount
  rw [hdec]
  simp

/-!
The stream reassembly engine (StreamReader in network/stream_reader.rs).

The envelope decoder (deserialize_partial over RawNetworkMessage) is an
external collaborator of the code under verification; following the spec
it is modelled as an arbitrary function from a byte list to either a
decoded message with its consumed byte count, or an EncodeError (where
the io error of kind UnexpectedEof is the incomplete-data condition).
The transport is a list of read events: each blocking read yields the
next chunk of bytes (possibly empty) or an io failure; an exhausted
event list behaves as end-of-stream, which the Rust Read contract
reports as reads that return zero bytes.  Loops are given explicit fuel;
the outcome hang marks a run in which the Rust loop would still be
running after that much fuel, so a result that is hang at every fuel is
a non-terminating call.
-/

/-- One blocking transport read: the bytes obtained, or an io failure. -/
inductive ReadEvent
  | chunk (bytes : List Nat)
  | fail (k : IoKind)
deriving DecidableEq

/-- The mutable state of a StreamReader: the buffer of not yet parsed
bytes (field unparsed) and the remaining transport stream. -/
structure RState where
  unparsed : List Nat
  stream : List ReadEvent
deriving DecidableEq

/-- Result of one transport read against the remaining event list:
end-of-stream yields zero bytes and leaves the stream empty. -/
def readStep : List ReadEvent → Except IoKind (List Nat) × List ReadEvent
  | [] => (.ok [], [])
  | .chunk c :: rest => (.ok c, rest)
  | .fail k :: rest => (.error k, rest)

/-- Outcome of a parse pass: the extracted messages and the residual
buffer, a propagated decode failure together with the buffer as already
drained at the failure point, or hang (the fuel ran out while the Rust
loop would still be running). -/
inductive ParseOut (M : Type)
  | ok (msgs : List M) (rest : List Nat)
  | failed (e : EncodeError) (rest : List Nat)
  | hang

/-- The loop body of StreamReader::parse: while the buffer is non-empty,
attempt an envelope decode; on an UnexpectedEof io error return the
messages collected so far keeping the buffer; on any other error
propagate it; on success push the message and drain exactly the consumed
prefix from the head. -/
def parseGo {M : Type} (d : List Nat → Except EncodeError (M × Nat)) :
    Nat → List Nat → List M → ParseOut M
  | _, [], acc => .ok acc []
  | 0, _ :: _, _ => .hang
  | fuel + 1, b :: bs, acc =>
    match d (b :: bs) with
    | .ok (m, idx) => parseGo d fuel ((b :: bs).drop idx) (acc ++ [m])
    | .error e =>
      if e = .ioError .unexpectedEof then .ok acc (b :: bs)
      else .failed e (b :: bs)

/-- StreamReader::parse on a given buffer.  Each successful decode
consumes at least one byte for any decoder satisfying SaneDecoder, so a
fuel equal to the buffer length is enough for the loop to run to its
Rust outcome. -/
def parse {M : Type} (d : List Nat → Except EncodeError (M × Nat)) (unparsed : List Nat) :
    ParseOut M :=
  parseGo d unparsed.length unparsed []

/-- Outcome of read_messages: a batch of messages with the final reader
state, a propagated failure with the final reader state, or hang (the
fuel ran out while the Rust loop would still be running). -/
inductive ReadOutcome (M : Type)
  | done (msgs : List M) (st : RState)
  | failed (e : EncodeError) (st : RState)
  | hang

/-- The loop of StreamReader::read_messages: while no message has been
assembled, perform one transport read (propagating a read failure),
append the bytes read to the tail of the buffer, run a parse pass, and
either accumulate its messages or propagate its failure; once the batch
is non-empty return it without further reads. -/
def readLoop {M : Type} (d : List Nat → Except EncodeError (M × Nat)) :
    Nat → List M → RState → ReadOutcome M
  | 0, msgs, st => if msgs.length = 0 then .hang else .done msgs st
  | fuel + 1, msgs, st =>
    if msgs.length = 0 then
      match readStep st.stream with
      | (.error k, rest) => .failed (.ioError k) ⟨st.unparsed, rest⟩
      | (.ok c, rest) =>
        match parse d (st.unparsed ++ c) with
        | .ok ms u2 => readLoop d fuel (msgs ++ ms) ⟨u2, rest⟩
        | .failed e u2 => .failed e ⟨u2, rest⟩
        | .hang => .hang
    else .done msgs st

/-- StreamReader::read_messages, starting from an empty batch. -/
def read_messages {M : Type} (d : List Nat → Except EncodeError (M × Nat))
    (fuel : Nat) (st : RState) : ReadOutcome M :=
  readLoop d fuel [] st

/-- A sane envelope decoder: a successful decode consumes at least one
byte (a complete envelope has a non-empty header) and no more bytes than
its input holds (the consumed count is an index into the given slice). -/
def SaneDecoder {M : Type} (d : List Nat → Except EncodeError (M × Nat)) : Prop :=
  ∀ l m k, d l = .ok (m, k) → 1 ≤ k ∧ k ≤ l.length

/-- A maximal chain of successful envelope decodes from the head of a
buffer: each step consumes exactly its reported byte count from the
head, and the chain ends when the buffer is empty or the next decode
reports incomplete data. -/
inductive DecodeChain {M : Type} (d : List Nat → Except EncodeError (M × Nat)) :
    List Nat → List M → List Nat → Prop
  | empty : DecodeChain d [] [] []
  | stop (buf : List Nat) (hne : buf ≠ [])
      (h : d buf = .error (.ioError .unexpectedEof)) : DecodeChain d buf [] buf
  | step (buf : List Nat) (m : M) (k : Nat) (ms : List M) (rest : List Nat)
      (h : d buf = .ok (m, k)) (tail : DecodeChain d (buf.drop k) ms rest) :
      DecodeChain d buf (m :: ms) rest

/-- A chain of successful envelope decodes that ends in a malformed-data
error: the messages decoded before the failure, the buffer as drained at
the failure point, and the error. -/
inductive ErrChain {M : Type} (d : List Nat → Except EncodeError (M × Nat)) :
    List Nat → List M → List Nat → EncodeError → Prop
  | stop (buf : List Nat) (e : EncodeError) (hne : buf ≠ [])
      (h : d buf = .error e) (hK : e ≠ .ioError .unexpectedEof) :
      ErrChain d buf [] buf e
  | step (buf : List Nat) (m : M) (k : Nat) (ms : List M) (rest : List Nat) (e : EncodeError)
      (h : d buf = .ok (m, k)) (tail : ErrChain d (buf.drop k) ms rest e) :
      ErrChain d buf (m :: ms) rest e

lemma parseGo_nil {M : Type} (d : List Nat → Except EncodeError (M × Nat))
    (fuel : Nat) (acc : List M) : parseGo d fuel [] acc = .ok acc [] := by
  cases fuel <;> rfl

lemma parseGo_cons {M : Type} (d : List Nat → Except EncodeError (M × Nat))
    (fuel : Nat) (b : Nat) (bs : List Nat) (acc : List M) :
    parseGo d (fuel + 1) (b :: bs) acc =
      match d (b :: bs) with
      | .ok (m, idx) => parseGo d fuel ((b :: bs).drop idx) (acc ++ [m])
      | .error e =>
        if e = .ioError .unexpectedEof then .ok acc (b :: bs)
        else .failed e (b :: bs) := rfl

lemma parseGo_chain {M : Type} (d : List Nat → Except EncodeError (M × Nat))
    (sane : SaneDecoder d) :
    ∀ (fuel : Nat) (buf : List Nat) (acc : List M), buf.length ≤ fuel →
      (∃ ms rest, parseGo d fuel buf acc = .ok (acc ++ ms) rest ∧ DecodeChain d buf ms rest) ∨
      (∃ e ms rest, parseGo d fuel buf acc = .failed e rest ∧ ErrChain d buf ms rest e) := by
  intro fuel
  induction fuel with
  | zero =>
    intro buf acc hle
    have hbuf : buf = [] := List.length_eq_zero.mp (Nat.le_zero.mp hle)
    subst hbuf
    left
    exact ⟨[], [], by simp [parseGo_nil], DecodeChain.empty⟩
  | succ n ih =>
    intro buf acc hle
    cases buf with
    | nil =>
      left
      exact ⟨[], [], by simp [parseGo_nil], DecodeChain.empty⟩
    | cons b bs =>
      rw [parseGo_cons]
      cases hd : d (b :: bs) with
      | error e =>
        by_cases he : e = .ioError .unexpectedEof
        · subst he
          left
          exact ⟨[], b :: bs, by simp [hd], DecodeChain.stop _ (by simp) hd⟩
        · right
          exact ⟨e, [], b :: bs, by simp [hd, he], ErrChain.stop _ e (by simp) hd he⟩
      | ok p =>
        obtain ⟨m, k⟩ := p
        obtain ⟨hk1, hk2⟩ := sane _ _ _ hd
        have hlen : ((b :: bs).drop k).length ≤ n := by
          simp only [List.length_drop, List.length_cons]
          simp only [List.length_cons] at hle hk2
          omega
        rcases ih ((b :: bs).drop k) (acc ++ [m]) hlen with
          ⟨ms, rest, heq, hch⟩ | ⟨e, ms, rest, heq, hch⟩
        · left
          refine ⟨m :: ms, rest, ?_, DecodeChain.step _ m k ms rest hd hch⟩
          simp only [hd, heq, List.append_assoc, List.singleton_append]
        · right
          exact ⟨e, m :: ms, rest, by simp only [hd, heq],
            ErrChain.step _ m k ms rest e hd hch⟩

lemma parse_ok_chain {M : Type} (d : List Nat → Except EncodeError (M × Nat))
    (sane : SaneDecoder d) (buf : List Nat) (ms : List M) (rest : List Nat)
    (h : parse d buf = .ok ms rest) : DecodeChain d buf ms rest := by
  rcases parseGo_chain d sane buf.length buf [] le_rfl with
    ⟨ms2, rest2, heq, hch⟩ | ⟨e, ms2, rest2, heq, hch⟩
  · unfold parse at h
    rw [heq] at h
    injection h with h1 h2
    simp only [List.nil_append] at h1
    subst h1
    subst h2
    exact hch
  · unfold parse at h
    rw [heq] at h
    simp at h

lemma parse_failed_chain {M : Type} (d : List Nat → Except EncodeError (M × Nat))
    (sane : SaneDecoder d) (buf : List Nat) (e : EncodeError) (rest : List Nat)
    (h : parse d buf = .failed e rest) : ∃ ms, ErrChain d buf ms rest e := by
  rcases parseGo_chain d sane buf.length buf [] le_rfl with
    ⟨ms2, rest2, heq, hch⟩ | ⟨e2, ms2, rest2, heq, hch⟩
  · unfold parse at h
    rw [heq] at h
    simp at h
  · unfold parse at h
    rw [heq] at h
    injection h with h1 h2
    subst h1
    subst h2
    exact ⟨ms2, hch⟩

lemma parse_not_hang {M : Type} (d : List Nat → Except EncodeError (M × Nat))
    (sane : SaneDecoder d) (buf : List Nat) : parse d buf ≠ ParseOut.hang := by
  rcases parseGo_chain d sane buf.length buf [] le_rfl with
    ⟨ms2, rest2, heq, _⟩ | ⟨e2, ms2, rest2, heq, _⟩ <;>
    · unfold parse
      rw [heq]
      simp

lemma DecodeChain.nil_rest {M : Type} {d : List Nat → Except EncodeError (M × Nat)}
    {buf rest : List Nat} (h : DecodeChain d buf [] rest) : rest = buf := by
  cases h <;> rfl

lemma DecodeChain.rest_spec {M : Type} {d : List Nat → Except EncodeError (M × Nat)}
    {buf : List Nat} {ms : List M} {rest : List Nat} (h : DecodeChain d buf ms rest) :
    rest = [] ∨ d rest = .error (.ioError .unexpectedEof) := by
  induction h with
  | empty => left; rfl
  | stop buf hne hd => right; exact hd
  | step buf m k ms rest hd tail ih => exact ih

lemma readLoop_pos {M : Type} (d : List Nat → Except EncodeError (M × Nat))
    (fuel : Nat) (msgs : List M) (st : RState) (h : msgs ≠ []) :
    readLoop d fuel msgs st = .done msgs st := by
  have hlen : ¬ msgs.length = 0 := by simpa [List.length_eq_zero] using h
  cases fuel <;> simp [readLoop, hlen]

lemma readLoop_succ_fail {M : Type} (d : List Nat → Except EncodeError (M × Nat))
    (fuel : Nat) (u : List Nat) (k : IoKind) (s : List ReadEvent) :
    readLoop d (fuel + 1) ([] : List M) ⟨u, ReadEvent.fail k :: s⟩ =
      .failed (.ioError k) ⟨u, s⟩ := rfl

lemma readLoop_step_ok {M : Type} (d : List Nat → Except EncodeError (M × Nat))
    (fuel : Nat) (u c : List Nat) (s : List ReadEvent) (ms : List M) (u2 : List Nat)
    (hp : parse d (u ++ c) = .ok ms u2) :
    readLoop d (fuel + 1) [] ⟨u, ReadEvent.chunk c :: s⟩ = readLoop d fuel ms ⟨u2, s⟩ := by
  show (match parse d (u ++ c) with
    | ParseOut.ok ms u2 => readLoop d fuel ([] ++ ms) ⟨u2, s⟩
    | ParseOut.failed e u2 => ReadOutcome.failed e ⟨u2, s⟩
    | ParseOut.hang => ReadOutcome.hang) = readLoop d fuel ms ⟨u2, s⟩
  rw [hp]
  exact rfl

lemma readLoop_step_failed {M : Type} (d : List Nat → Except EncodeError (M × Nat))
    (fuel : Nat) (u c : List Nat) (s : List ReadEvent) (e : EncodeError) (u2 : List Nat)
    (hp : parse d (u ++ c) = ParseOut.failed e u2) :
    readLoop d (fuel + 1) ([] : List M) ⟨u, ReadEvent.chunk c :: s⟩ =
      .failed e ⟨u2, s⟩ := by
  show (match parse d (u ++ c) with
    | ParseOut.ok ms u2 => readLoop d fuel ([] ++ ms) ⟨u2, s⟩
    | ParseOut.failed e u2 => ReadOutcome.failed e ⟨u2, s⟩
    | ParseOut.hang => ReadOutcome.hang) = ReadOutcome.failed e ⟨u2, s⟩
  rw [hp]

lemma readLoop_step_hang {M : Type} (d : List Nat → Except EncodeError (M × Nat))
    (fuel : Nat) (u c : List Nat) (s : List ReadEvent)
    (hp : parse d (u ++ c) = ParseOut.hang) :
    readLoop d (fuel + 1) ([] : List M) ⟨u, ReadEvent.chunk c :: s⟩ = ReadOutcome.hang := by
  show (match parse d (u ++ c) with
    | ParseOut.ok ms u2 => readLoop d fuel ([] ++ ms) ⟨u2, s⟩
    | ParseOut.failed e u2 => ReadOutcome.failed e ⟨u2, s⟩
    | ParseOut.hang => ReadOutcome.hang) = ReadOutcome.hang
  rw [hp]

lemma readLoop_eof_ok {M : Type} (d : List Nat → Except EncodeError (M × Nat))
    (fuel : Nat) (u : List Nat) (ms : List M) (u2 : List Nat)
    (hp : parse d (u ++ []) = .ok ms u2) :
    readLoop d (fuel + 1) [] ⟨u, []⟩ = readLoop d fuel ms ⟨u2, []⟩ := by
  show (match parse d (u ++ []) with
    | ParseOut.ok ms u2 => readLoop d fuel ([] ++ ms) ⟨u2, []⟩
    | ParseOut.failed e u2 => ReadOutcome.failed e ⟨u2, []⟩
    | ParseOut.hang => ReadOutcome.hang) = readLoop d fuel ms ⟨u2, []⟩
  rw [hp]
  exact rfl

lemma readLoop_eof_failed {M : Type} (d : List Nat → Except EncodeError (M × Nat))
    (fuel : Nat) (u : List Nat) (e : EncodeError) (u2 : List Nat)
    (hp : parse d (u ++ []) = ParseOut.failed e u2) :
    readLoop d (fuel + 1) ([] : List M) ⟨u, []⟩ = .failed e ⟨u2, []⟩ := by
  show (match parse d (u ++ []) with
    | ParseOut.ok ms u2 => readLoop d fuel ([] ++ ms) ⟨u2, []⟩
    | ParseOut.failed e u2 => ReadOutcome.failed e ⟨u2, []⟩
    | ParseOut.hang => ReadOutcome.hang) = ReadOutcome.failed e ⟨u2, []⟩
  rw [hp]

lemma readLoop_eof_hang {M : Type} (d : List Nat → Except EncodeError (M × Nat))
    (fuel : Nat) (u : List Nat)
    (hp : parse d (u ++ []) = ParseOut.hang) :
    readLoop d (fuel + 1) ([] : List M) ⟨u, []⟩ = ReadOutcome.hang := by
  show (match parse d (u ++ []) with
    | ParseOut.ok ms u2 => readLoop d fuel ([] ++ ms) ⟨u2, []⟩
    | ParseOut.failed e u2 => ReadOutcome.failed e ⟨u2, []⟩
    | ParseOut.hang => ReadOutcome.hang) = ReadOutcome.hang
  rw [hp]

lemma readLoop_done_ne_nil {M : Type} (d : List Nat → Except EncodeError (M × Nat)) :
    ∀ (fuel : Nat) (msgs : List M) (st : RState) (outMsgs : List M) (st' : RState),
      readLoop d fuel msgs st = .done outMsgs st' → outMsgs ≠ [] := by
  intro fuel
  induction fuel with
  | zero =>
    intro msgs st outMsgs st' h
    by_cases hm : msgs.length = 0
    · simp [readLoop, hm] at h
    · simp only [readLoop, if_neg hm] at h
      injection h with h1 h2
      subst h1
      intro hc
      subst hc
      exact hm rfl
  | succ n ih =>
    intro msgs st outMsgs st' h
    by_cases hm : msgs.length = 0
    · have hmsgs : msgs = [] := List.length_eq_zero.mp hm
      subst hmsgs
      obtain ⟨u0, s0⟩ := st
      cases s0 with
      | nil =>
        cases hp : parse d (u0 ++ []) with
        | ok ms u2 =>
          rw [readLoop_eof_ok d n u0 ms u2 hp] at h
          exact ih ms ⟨u2, []⟩ outMsgs st' h
        | failed e u2 =>
          rw [readLoop_eof_failed d n u0 e u2 hp] at h
          simp at h
        | hang =>
          rw [readLoop_eof_hang d n u0 hp] at h
          simp at h
      | cons ev s0 =>
        cases ev with
        | fail k =>
          rw [readLoop_succ_fail] at h
          simp at h
        | chunk c =>
          cases hp : parse d (u0 ++ c) with
          | ok ms u2 =>
            rw [readLoop_step_ok d n u0 c s0 ms u2 hp] at h
            exact ih ms ⟨u2, s0⟩ outMsgs st' h
          | failed e u2 =>
            rw [readLoop_step_failed d n u0 c s0 e u2 hp] at h
            simp at h
          | hang =>
            rw [readLoop_step_hang d n u0 c s0 hp] at h
            simp at h
    · simp only [readLoop, if_neg hm] at h
      injection h with h1 h2
      subst h1
      intro hc
      subst hc
      exact hm rfl

lemma readLoop_done_chain {M : Type} (d : List Nat → Except EncodeError (M × Nat))
    (sane : SaneDecoder d) :
    ∀ (fuel : Nat) (st : RState) (msgs : List M) (st' : RState),
      readLoop d fuel [] st = .done msgs st' →
      ∃ cs : List (List Nat),
        st.stream = cs.map ReadEvent.chunk ++ st'.stream ∧
        DecodeChain d (st.unparsed ++ cs.flatten) msgs st'.unparsed := by
  intro fuel
  induction fuel with
  | zero =>
    intro st msgs st' h
    simp [readLoop] at h
  | succ n ih =>
    intro st msgs st' h
    obtain ⟨u0, s0⟩ := st
    cases s0 with
    | nil =>
      cases hp : parse d (u0 ++ []) with
      | ok ms u2 =>
        rw [readLoop_eof_ok d n u0 ms u2 hp] at h
        cases ms with
        | nil =>
          have hch0 := parse_ok_chain d sane _ _ _ hp
          have hu2 : u2 = u0 ++ [] := DecodeChain.nil_rest hch0
          obtain ⟨cs, hcs, hchain⟩ := ih ⟨u2, []⟩ msgs st' h
          simp only at hcs hchain
          have hnil := List.append_eq_nil.mp hcs.symm
          refine ⟨[], ?_, ?_⟩
          · simp [hnil.2]
          · simp only [List.flatten_nil, List.append_nil]
            have : cs = [] := by
              rcases cs with _ | ⟨c, cs⟩
              · rfl
              · simp at hnil
            subst this
            simp only [List.flatten_nil, List.append_nil] at hchain
            rw [List.append_nil] at hu2
            rwa [hu2] at hchain
        | cons m ms2 =>
          rw [readLoop_pos d n (m :: ms2) _ (by simp)] at h
          injection h with h1 h2
          subst h1
          subst h2
          refine ⟨[], by simp, ?_⟩
          simp only [List.flatten_nil, List.append_nil]
          have := parse_ok_chain d sane _ _ _ hp
          rwa [List.append_nil] at this
      | failed e u2 =>
        rw [readLoop_eof_failed d n u0 e u2 hp] at h
        simp at h
      | hang =>
        rw [readLoop_eof_hang d n u0 hp] at h
        simp at h
    | cons ev s0 =>
      cases ev with
      | fail k =>
        rw [readLoop_succ_fail] at h
        simp at h
      | chunk c =>
        cases hp : parse d (u0 ++ c) with
        | ok ms u2 =>
          rw [readLoop_step_ok d n u0 c s0 ms u2 hp] at h
          cases ms with
          | nil =>
            have hch0 := parse_ok_chain d sane _ _ _ hp
            have hu2 : u2 = u0 ++ c := DecodeChain.nil_rest hch0
            obtain ⟨cs, hcs, hchain⟩ := ih ⟨u2, s0⟩ msgs st' h
            simp only at hcs hchain
            refine ⟨c :: cs, ?_, ?_⟩
            · simp [hcs]
            · simp only [List.flatten_cons, ← List.append_assoc]
              rwa [← hu2]
          | cons m ms2 =>
            rw [readLoop_pos d n (m :: ms2) _ (by simp)] at h
            injection h with h1 h2
            subst h1
            subst h2
            refine ⟨[c], by simp, ?_⟩
            simp only [List.flatten_cons, List.flatten_nil, List.append_nil]
            exact parse_ok_chain d sane _ _ _ hp
        | failed e u2 =>
          rw [readLoop_step_failed d n u0 c s0 e u2 hp] at h
          simp at h
        | hang =>
          rw [readLoop_step_hang d n u0 c s0 hp] at h
          simp at h

lemma readLoop_eof_diverges {M : Type} (d : List Nat → Except EncodeError (M × Nat)) :
    ∀ (fuel : Nat) (u : List Nat), parse d u = ParseOut.ok [] u →
      readLoop d fuel [] ⟨u, []⟩ = ReadOutcome.hang := by
  intro fuel
  induction fuel with
  | zero => intro u hp; rfl
  | succ n ih =>
    intro u hp
    have hp2 : parse d (u ++ []) = .ok [] u := by
      rw [List.append_nil]
      exact hp
    rw [readLoop_eof_ok d n u [] u hp2]
    exact ih u hp

lemma parseGo_failed_not_eof {M : Type} (d : List Nat → Except EncodeError (M × Nat)) :
    ∀ (fuel : Nat) (buf : List Nat) (acc : List M) (e : EncodeError) (rest : List Nat),
      parseGo d fuel buf acc = .failed e rest → e ≠ .ioError .unexpectedEof := by
  intro fuel
  induction fuel with
  | zero =>
    intro buf acc e rest h
    cases buf with
    | nil => rw [parseGo_nil] at h; simp at h
    | cons b bs => simp [parseGo] at h
  | succ n ih =>
    intro buf acc e rest h
    cases buf with
    | nil => rw [parseGo_nil] at h; simp at h
    | cons b bs =>
      rw [parseGo_cons] at h
      cases hd : d (b :: bs) with
      | ok p =>
        obtain ⟨m, k⟩ := p
        simp only [hd] at h
        exact ih _ _ _ _ h
      | error e2 =>
        simp only [hd] at h
        by_cases he : e2 = .ioError .unexpectedEof
        · rw [if_pos he] at h
          simp at h
        · rw [if_neg he] at h
          injection h with h1 h2
          subst h1
          exact he

/-- Sample envelope decoder used to instantiate the general theorems on
concrete inputs: each leading byte is one complete message of length
one, except the byte 9, which is treated as malformed data. -/
def dFlag : List Nat → Except EncodeError (Nat × Nat)
  | [] => .error (.ioError .unexpectedEof)
  | b :: _ => if b = 9 then .error (.parseFailed "bad data") else .ok (b, 1)

lemma dFlag_sane : SaneDecoder dFlag := by
  intro l m k h
  cases l with
  | nil => simp [dFlag] at h
  | cons b bs =>
    simp only [dFlag] at h
    by_cases hb : b = 9
    · rw [if_pos hb] at h
      simp at h
    · rw [if_neg hb] at h
      injection h with h1
      injection h1 with hm hk
      subst hk
      exact ⟨le_refl 1, Nat.succ_le_succ (Nat.zero_le _)⟩

/-- Sample envelope decoder that always reports incomplete data (no
buffer ever holds a complete message). -/
def dNever : List Nat → Except EncodeError (Nat × Nat) :=
  fun _ => .error (.ioError .unexpectedEof)

/-- Sample hash values and messages used by the witness instantiations. -/
def hashA : Sha256dHash := ⟨List.replicate 32 1, by simp⟩

def hashB : Sha256dHash := ⟨List.replicate 32 2, by simp⟩

def hashC : Sha256dHash := ⟨List.replicate 32 3, by simp⟩

def exInv : Inventory := ⟨InvType.Block, zeroHash⟩

def exGetBlocks : GetBlocksMessage := ⟨70002, [hashA, hashB, hashC], zeroHash⟩

def exGetHeaders : GetHeadersMessage := ⟨70002, [hashA], zeroHash⟩

def exGetFilters : GetFiltersMessage := ⟨0, 1000, zeroHash⟩

def exGetFilterHeaders : GetFilterHeadersMessage := ⟨0, hashA, zeroHash⟩

def exFilter : FilterMessage := ⟨0, hashA, [1, 2, 3]⟩

def exFilterHeaders : FilterHeadersMessage := ⟨0, zeroHash, hashA, [hashB]⟩

def exGetFilterCheckpoints : GetFilterCheckpointsMessage := ⟨0, zeroHash⟩

def exFilterCheckpoints : FilterCheckpointsMessage := ⟨0, zeroHash, [hashA]⟩

/-- Claim C1, counterexample: the round-trip law fails as stated.  A
witness-kind inventory is a valid value of the data model, its encoding
succeeds (writing tag 0x40000002), but decoding that encoding does not
return the value: the decoder has no branch for witness tags and panics. -/
theorem inventory_witness_roundtrip_fails :
    Inventory.consensus_decode
        (Inventory.consensus_encode ⟨InvType.WitnessBlock, zeroHash⟩) =
      DecOutcome.panic "bad inventory type field" := by decide

/-- Claim C1 (amended): decoding the encoding reproduces the value
field-for-field and reports consuming exactly the encoded length, for
GetBlocksMessage, GetHeadersMessage and all six compact-filter messages,
and for inventory objects whose kind is Error, Transaction or Block;
witness-kind inventories are excluded because their decode panics (see
the counterexample). -/
theorem message_codec_roundtrip :
    (∀ i : Inventory,
      (i.inv_type = InvType.Error ∨ i.inv_type = InvType.Transaction ∨
        i.inv_type = InvType.Block) →
      decodeWithCount Inventory.consensus_decode i.consensus_encode =
        .ok (i, i.consensus_encode.length) []) ∧
    (∀ m : GetBlocksMessage, m.Valid →
      decodeWithCount GetBlocksMessage.consensus_decode m.consensus_encode =
        .ok (m, m.consensus_encode.length) []) ∧
    (∀ m : GetHeadersMessage, m.Valid →
      decodeWithCount GetHeadersMessage.consensus_decode m.consensus_encode =
        .ok (m, m.consensus_encode.length) []) ∧
    (∀ m : GetFiltersMessage, m.Valid →
      decodeWithCount GetFiltersMessage.consensus_decode m.consensus_encode =
        .ok (m, m.consensus_encode.length) []) ∧
    (∀ m : GetFilterHeadersMessage,
      decodeWithCount GetFilterHeadersMessage.consensus_decode m.consensus_encode =
        .ok (m, m.consensus_encode.length) []) ∧
    (∀ m : FilterMessage, m.Valid →
      decodeWithCount FilterMessage.consensus_decode m.consensus_encode =
        .ok (m, m.consensus_encode.length) []) ∧
    (∀ m : FilterHeadersMessage, m.Valid →
      decodeWithCount FilterHeadersMessage.consensus_decode m.consensus_encode =
        .ok (m, m.consensus_encode.length) []) ∧
    (∀ m : GetFilterCheckpointsMessage,
      decodeWithCount GetFilterCheckpointsMessage.consensus_decode m.consensus_encode =
        .ok (m, m.consensus_encode.length) []) ∧
    (∀ m : FilterCheckpointsMessage, m.Valid →
      decodeWithCount FilterCheckpointsMessage.consensus_decode m.consensus_encode =
        .ok (m, m.consensus_encode.length) []) := by
  refine ⟨?_, ?_, ?_, ?_, ?_, ?_, ?_, ?_, ?_⟩
  · intro i hb
    refine decodeWithCount_of_ok _ _ _ ?_
    have := inventory_decode_encode i hb []
    rwa [List.append_nil] at this
  · intro m hv
    refine decodeWithCount_of_ok _ _ _ ?_
    have := getBlocksMessage_decode_encode m hv []
    rwa [List.append_nil] at this
  · intro m hv
    refine decodeWithCount_of_ok _ _ _ ?_
    have := getHeadersMessage_decode_encode m hv []
    rwa [List.append_nil] at this
  · intro m hv
    refine decodeWithCount_of_ok _ _ _ ?_
    have := getFiltersMessage_decode_encode m hv []
    rwa [List.append_nil] at this
  · intro m
    refine decodeWithCount_of_ok _ _ _ ?_
    have := getFilterHeadersMessage_decode_encode m []
    rwa [List.append_nil] at this
  · intro m hv
    refine decodeWithCount_of_ok _ _ _ ?_
    have := filterMessage_decode_encode m hv []
    rwa [List.append_nil] at this
  · intro m hv
    refine decodeWithCount_of_ok _ _ _ ?_
    have := filterHeadersMessage_decode_encode m hv []
    rwa [List.append_nil] at this
  · intro m
    refine decodeWithCount_of_ok _ _ _ ?_
    have := getFilterCheckpointsMessage_decode_encode m []
    rwa [List.append_nil] at this
  · intro m hv
    refine decodeWithCount_of_ok _ _ _ ?_
    have := filterCheckpointsMessage_decode_encode m hv []
    rwa [List.append_nil] at this

/-- Witness for the amended round-trip law: the nine component laws hold
on concrete sample values. -/
theorem message_codec_roundtrip_witness :
    decodeWithCount Inventory.consensus_decode exInv.consensus_encode =
      .ok (exInv, exInv.consensus_encode.length) [] ∧
    decodeWithCount GetBlocksMessage.consensus_decode exGetBlocks.consensus_encode =
      .ok (exGetBlocks, exGetBlocks.consensus_encode.length) [] ∧
    decodeWithCount GetHeadersMessage.consensus_decode exGetHeaders.consensus_encode =
      .ok (exGetHeaders, exGetHeaders.consensus_encode.length) [] ∧
    decodeWithCount GetFiltersMessage.consensus_decode exGetFilters.consensus_encode =
      .ok (exGetFilters, exGetFilters.consensus_encode.length) [] ∧
    decodeWithCount GetFilterHeadersMessage.consensus_decode exGetFilterHeaders.consensus_encode =
      .ok (exGetFilterHeaders, exGetFilterHeaders.consensus_encode.length) [] ∧
    decodeWithCount FilterMessage.consensus_decode exFilter.consensus_encode =
      .ok (exFilter, exFilter.consensus_encode.length) [] ∧
    decodeWithCount FilterHeadersMessage.consensus_decode exFilterHeaders.consensus_encode =
      .ok (exFilterHeaders, exFilterHeaders.consensus_encode.length) [] ∧
    decodeWithCount GetFilterCheckpointsMessage.consensus_decode
        exGetFilterCheckpoints.consensus_encode =
      .ok (exGetFilterCheckpoints, exGetFilterCheckpoints.consensus_encode.length) [] ∧
    decodeWithCount FilterCheckpointsMessage.consensus_decode
        exFilterCheckpoints.consensus_encode =
      .ok (exFilterCheckpoints, exFilterCheckpoints.consensus_encode.length) [] :=
  ⟨message_codec_roundtrip.1 exInv (Or.inr (Or.inr rfl)),
   message_codec_roundtrip.2.1 exGetBlocks ⟨by decide, by decide⟩,
   message_codec_roundtrip.2.2.1 exGetHeaders ⟨by decide, by decide⟩,
   message_codec_roundtrip.2.2.2.1 exGetFilters ⟨by decide, by decide⟩,
   message_codec_roundtrip.2.2.2.2.1 exGetFilterHeaders,
   message_codec_roundtrip.2.2.2.2.2.1 exFilter ⟨by decide, by decide⟩,
   message_codec_roundtrip.2.2.2.2.2.2.1 exFilterHeaders ⟨by decide, by decide⟩,
   message_codec_roundtrip.2.2.2.2.2.2.2.1 exGetFilterCheckpoints,
   message_codec_roundtrip.2.2.2.2.2.2.2.2 exFilterCheckpoints ⟨by decide, by decide⟩⟩

/-- Claim C2: the claim is right and the code is wrong.  Decoding an
inventory object whose 4-byte kind field holds 3 (outside the recognized
set) does not surface a recoverable malformed-data error: the source
panics on the default branch of its tag match (its own TODO comment says
it should not fail there), which this model records as the panic
outcome. -/
theorem inventory_decode_unknown_tag_aborts :
    Inventory.consensus_decode ([3, 0, 0, 0] ++ List.replicate 32 0) =
      DecOutcome.panic "bad inventory type field" := by decide

/-- Claim C7: encoding an inventory object writes its kind as a 4-byte
little-endian unsigned integer with exactly the values Error = 0,
Transaction = 1, Block = 2, WitnessBlock = 0x40000002 (bytes 02 00 00 40)
and WitnessTransaction = 0x40000001 (bytes 01 00 00 40), followed by the
raw 32-byte hash unmodified; and decoding kind value 2 yields Block. -/
theorem inventory_tag_encoding_exact :
    (∀ h : Sha256dHash,
      Inventory.consensus_encode ⟨InvType.Error, h⟩ = [0, 0, 0, 0] ++ h.val ∧
      Inventory.consensus_encode ⟨InvType.Transaction, h⟩ = [1, 0, 0, 0] ++ h.val ∧
      Inventory.consensus_encode ⟨InvType.Block, h⟩ = [2, 0, 0, 0] ++ h.val ∧
      Inventory.consensus_encode ⟨InvType.WitnessBlock, h⟩ = [2, 0, 0, 64] ++ h.val ∧
      Inventory.consensus_encode ⟨InvType.WitnessTransaction, h⟩ = [1, 0, 0, 64] ++ h.val) ∧
    (∀ h : Sha256dHash,
      Inventory.consensus_decode ([2, 0, 0, 0] ++ h.val) = .ok ⟨InvType.Block, h⟩ []) := by
  constructor
  · intro h
    refine ⟨?_, ?_, ?_, ?_, ?_⟩
    · show u32ToBytes 0 ++ h.val = [0, 0, 0, 0] ++ h.val
      rw [show u32ToBytes 0 = [0, 0, 0, 0] from by decide]
    · show u32ToBytes 1 ++ h.val = [1, 0, 0, 0] ++ h.val
      rw [show u32ToBytes 1 = [1, 0, 0, 0] from by decide]
    · show u32ToBytes 2 ++ h.val = [2, 0, 0, 0] ++ h.val
      rw [show u32ToBytes 2 = [2, 0, 0, 0] from by decide]
    · show u32ToBytes 1073741826 ++ h.val = [2, 0, 0, 64] ++ h.val
      rw [show u32ToBytes 1073741826 = [2, 0, 0, 64] from by decide]
    · show u32ToBytes 1073741825 ++ h.val = [1, 0, 0, 64] ++ h.val
      rw [show u32ToBytes 1073741825 = [1, 0, 0, 64] from by decide]
  · intro h
    have henc : ([2, 0, 0, 0] : List Nat) ++ h.val =
        Inventory.consensus_encode ⟨InvType.Block, h⟩ := by
      simp [Inventory.consensus_encode, invTypeCode, u32ToBytes]
    rw [henc]
    have := inventory_decode_encode ⟨InvType.Block, h⟩ (Or.inr (Or.inr rfl)) []
    rwa [List.append_nil] at this

/-- Witness for the inventory tag exactness on a concrete hash value. -/
theorem inventory_tag_encoding_exact_witness :
    Inventory.consensus_encode ⟨InvType.WitnessBlock, hashA⟩ = [2, 0, 0, 64] ++ hashA.val ∧
    Inventory.consensus_encode ⟨InvType.WitnessTransaction, hashA⟩ = [1, 0, 0, 64] ++ hashA.val ∧
    Inventory.consensus_decode ([2, 0, 0, 0] ++ hashA.val) = .ok ⟨InvType.Block, hashA⟩ [] :=
  ⟨(inventory_tag_encoding_exact.1 hashA).2.2.2.1,
   (inventory_tag_encoding_exact.1 hashA).2.2.2.2,
   inventory_tag_encoding_exact.2 hashA⟩

/-- Claim C8: the codec never reorders locator_hashes.  Round-tripping a
GetBlocksMessage or GetHeadersMessage through encode then decode
reproduces the exact message, locator sequence order included, and the
encoding lays the list out as a compact-size count prefix followed by
the hashes in sequence order. -/
theorem locator_order_preserved :
    (∀ m : GetBlocksMessage, m.Valid →
      GetBlocksMessage.consensus_decode m.consensus_encode = .ok m []) ∧
    (∀ m : GetHeadersMessage, m.Valid →
      GetHeadersMessage.consensus_decode m.consensus_encode = .ok m []) ∧
    (∀ m : GetBlocksMessage, m.consensus_encode =
      u32ToBytes m.version ++ (compactSize m.locator_hashes.length ++
        List.flatten (m.locator_hashes.map Subtype.val)) ++ m.stop_hash.val) ∧
    (∀ m : GetHeadersMessage, m.consensus_encode =
      u32ToBytes m.version ++ (compactSize m.locator_hashes.length ++
        List.flatten (m.locator_hashes.map Subtype.val)) ++ m.stop_hash.val) := by
  refine ⟨?_, ?_, fun m => rfl, fun m => rfl⟩
  · intro m hv
    have := getBlocksMessage_decode_encode m hv []
    rwa [List.append_nil] at this
  · intro m hv
    have := getHeadersMessage_decode_encode m hv []
    rwa [List.append_nil] at this

/-- Witness for locator-order preservation: a message carrying the
ordered hashes hashA, hashB, hashC round-trips to exactly that order. -/
theorem locator_order_preserved_witness :
    GetBlocksMessage.consensus_decode exGetBlocks.consensus_encode = .ok exGetBlocks [] ∧
    GetHeadersMessage.consensus_decode exGetHeaders.consensus_encode = .ok exGetHeaders [] :=
  ⟨locator_order_preserved.1 exGetBlocks ⟨by decide, by decide⟩,
   locator_order_preserved.2.1 exGetHeaders ⟨by decide, by decide⟩⟩

/-- Claim C3: read_messages returns either a non-empty ordered batch or
an error, never an empty batch: any done outcome carries a non-empty
message list; and once the extraction pass after a transport read yields
at least one message, the call returns that batch with the rest of the
transport stream untouched (no further read is issued). -/
theorem read_messages_nonempty_or_error :
    (∀ (M : Type) (d : List Nat → Except EncodeError (M × Nat)) (fuel : Nat)
        (st : RState) (msgs : List M) (st2 : RState),
      read_messages d fuel st = .done msgs st2 → msgs ≠ []) ∧
    (∀ (M : Type) (d : List Nat → Except EncodeError (M × Nat)) (fuel : Nat)
        (u c : List Nat) (s : List ReadEvent) (ms : List M) (u2 : List Nat),
      parse d (u ++ c) = ParseOut.ok ms u2 → ms ≠ [] →
      read_messages d (fuel + 1) ⟨u, ReadEvent.chunk c :: s⟩ = .done ms ⟨u2, s⟩) := by
  constructor
  · intro M d fuel st msgs st2 h
    exact readLoop_done_ne_nil d fuel [] st msgs st2 h
  · intro M d fuel u c s ms u2 hp hne
    unfold read_messages
    rw [readLoop_step_ok d fuel u c s ms u2 hp]
    exact readLoop_pos d fuel ms ⟨u2, s⟩ hne

/-- Witness for claim C3 on a concrete stream: one chunk holding one
complete message yields that non-empty batch after exactly one read. -/
theorem read_messages_nonempty_or_error_witness :
    (([7] : List Nat) ≠ []) ∧
    read_messages dFlag 2 ⟨[], [ReadEvent.chunk [7]]⟩ = ReadOutcome.done [7] ⟨[], []⟩ :=
  ⟨read_messages_nonempty_or_error.1 Nat dFlag 2 ⟨[], [ReadEvent.chunk [7]]⟩ [7] ⟨[], []⟩ rfl,
   read_messages_nonempty_or_error.2 Nat dFlag 1 [] [7] [] [7] [] rfl (by simp)⟩

/-- Claim C4: across a read_messages call, bytes enter the pending
buffer only by appending transport chunks at the tail, and each
successful envelope decode removes exactly its reported consumed count
from the head: every successful call admits a decode chain over the
initial buffer extended with the consumed chunks, ending in the residual
buffer; and every parse pass (successful or failing) is such a chain. -/
theorem pending_buffer_suffix_invariant :
    (∀ (M : Type) (d : List Nat → Except EncodeError (M × Nat)), SaneDecoder d →
      ∀ (fuel : Nat) (st : RState) (msgs : List M) (st2 : RState),
        read_messages d fuel st = .done msgs st2 →
        ∃ cs : List (List Nat),
          st.stream = cs.map ReadEvent.chunk ++ st2.stream ∧
          DecodeChain d (st.unparsed ++ cs.flatten) msgs st2.unparsed) ∧
    (∀ (M : Type) (d : List Nat → Except EncodeError (M × Nat)), SaneDecoder d →
      ∀ (buf : List Nat) (ms : List M) (rest : List Nat),
        parse d buf = ParseOut.ok ms rest → DecodeChain d buf ms rest) ∧
    (∀ (M : Type) (d : List Nat → Except EncodeError (M × Nat)), SaneDecoder d →
      ∀ (buf : List Nat) (e : EncodeError) (rest : List Nat),
        parse d buf = ParseOut.failed e rest → ∃ ms : List M, ErrChain d buf ms rest e) :=
  ⟨fun _ d sane fuel st msgs st2 h => readLoop_done_chain d sane fuel st msgs st2 h,
   fun _ d sane buf ms rest h => parse_ok_chain d sane buf ms rest h,
   fun _ d sane buf e rest h => parse_failed_chain d sane buf e rest h⟩

/-- Witness for claim C4 on concrete inputs. -/
theorem pending_buffer_suffix_invariant_witness :
    (∃ cs : List (List Nat),
      ([ReadEvent.chunk [7]] : List ReadEvent) = cs.map ReadEvent.chunk ++ ([] : List ReadEvent) ∧
      DecodeChain dFlag ([] ++ cs.flatten) [7] []) ∧
    DecodeChain dFlag [7] [7] [] ∧
    (∃ ms : List Nat, ErrChain dFlag [9] ms [9] (.parseFailed "bad data")) :=
  ⟨pending_buffer_suffix_invariant.1 Nat dFlag dFlag_sane 2
      ⟨[], [ReadEvent.chunk [7]]⟩ [7] ⟨[], []⟩ rfl,
   pending_buffer_suffix_invariant.2.1 Nat dFlag dFlag_sane [7] [7] [] rfl,
   pending_buffer_suffix_invariant.2.2 Nat dFlag dFlag_sane [9] (.parseFailed "bad data") [9] rfl⟩

/-- Claim C5: an incomplete decode result is never surfaced: a parse
pass never fails with the UnexpectedEof io error; when the head decode
reports incomplete the pass returns the messages collected so far and
keeps the buffer; when it reports any other error the pass fails with
exactly that error, and read_messages propagates it without retrying. -/
theorem incomplete_absorbed_malformed_propagated :
    (∀ (M : Type) (d : List Nat → Except EncodeError (M × Nat)) (fuel : Nat)
        (buf : List Nat) (acc : List M) (e : EncodeError) (rest : List Nat),
      parseGo d fuel buf acc = .failed e rest → e ≠ .ioError .unexpectedEof) ∧
    (∀ (M : Type) (d : List Nat → Except EncodeError (M × Nat)) (buf : List Nat),
      buf ≠ [] → d buf = .error (.ioError .unexpectedEof) →
      parse d buf = ParseOut.ok ([] : List M) buf) ∧
    (∀ (M : Type) (d : List Nat → Except EncodeError (M × Nat)) (buf : List Nat)
        (e : EncodeError),
      buf ≠ [] → d buf = .error e → e ≠ .ioError .unexpectedEof →
      parse d buf = ParseOut.failed e buf) ∧
    (∀ (M : Type) (d : List Nat → Except EncodeError (M × Nat)) (fuel : Nat)
        (u c : List Nat) (s : List ReadEvent) (e : EncodeError) (u2 : List Nat),
      parse d (u ++ c) = ParseOut.failed e u2 →
      read_messages d (fuel + 1) ⟨u, ReadEvent.chunk c :: s⟩ =
        ReadOutcome.failed e ⟨u2, s⟩) := by
  refine ⟨?_, ?_, ?_, ?_⟩
  · intro M d fuel buf acc e rest h
    exact parseGo_failed_not_eof d fuel buf acc e rest h
  · intro M d buf hne hd
    cases buf with
    | nil => exact absurd rfl hne
    | cons b bs =>
      show parseGo d (b :: bs).length (b :: bs) [] = ParseOut.ok [] (b :: bs)
      rw [List.length_cons, parseGo_cons]
      simp only [hd]
      rw [if_pos trivial]
  · intro M d buf e hne hd he
    cases buf with
    | nil => exact absurd rfl hne
    | cons b bs =>
      show parseGo d (b :: bs).length (b :: bs) [] = ParseOut.failed e (b :: bs)
      rw [List.length_cons, parseGo_cons]
      simp only [hd]
      rw [if_neg he]
  · intro M d fuel u c s e u2 hp
    unfold read_messages
    exact readLoop_step_failed d fuel u c s e u2 hp

/-- Witness for claim C5 on concrete inputs. -/
theorem incomplete_absorbed_malformed_propagated_witness :
    ((EncodeError.parseFailed "bad data") ≠ EncodeError.ioError .unexpectedEof) ∧
    parse dNever [5] = ParseOut.ok ([] : List Nat) [5] ∧
    parse dFlag [9] = ParseOut.failed (.parseFailed "bad data") [9] ∧
    read_messages dFlag 1 ⟨[], [ReadEvent.chunk [9]]⟩ =
      ReadOutcome.failed (.parseFailed "bad data") ⟨[9], []⟩ :=
  ⟨incomplete_absorbed_malformed_propagated.1 Nat dFlag 1 [9] []
      (.parseFailed "bad data") [9] rfl,
   incomplete_absorbed_malformed_propagated.2.1 Nat dNever [5] (by simp) rfl,
   incomplete_absorbed_malformed_propagated.2.2.1 Nat dFlag [9]
      (.parseFailed "bad data") (by simp) rfl (by decide),
   incomplete_absorbed_malformed_propagated.2.2.2 Nat dFlag 0 [] [9] []
      (.parseFailed "bad data") [9] rfl⟩

/-- Claim C6, counterexample: with the transport at definitive closure
from the start (every read returns zero bytes, the Rust Read contract
for end-of-stream) and no complete message assemblable, read_messages
does not terminate with a reported failure: for no amount of fuel does
the call return a failure, or anything at all. -/
theorem eof_without_message_never_fails :
    (¬ ∃ (n : Nat) (e : EncodeError) (st : RState),
      read_messages dNever n ⟨[], []⟩ = ReadOutcome.failed e st) ∧
    (¬ ∃ (n : Nat) (msgs : List Nat) (st : RState),
      read_messages dNever n ⟨[], []⟩ = ReadOutcome.done msgs st) := by
  have key : ∀ n : Nat, read_messages dNever n ⟨[], []⟩ = ReadOutcome.hang := by
    intro n
    exact readLoop_eof_diverges dNever n [] rfl
  constructor
  · rintro ⟨n, e, st, h⟩
    rw [key n] at h
    simp at h
  · rintro ⟨n, msgs, st, h⟩
    rw [key n] at h
    simp at h

/-- Claim C6 (amended): a transport read that itself fails surfaces
immediately as a terminal failure; but end-of-stream signalled as
zero-byte reads is treated as "no new data this iteration", so when no
complete message can be assembled read_messages loops forever re-reading
zero bytes instead of reporting a failure. -/
theorem transport_error_fails_eof_loops :
    (∀ (M : Type) (d : List Nat → Except EncodeError (M × Nat)) (fuel : Nat)
        (u : List Nat) (k : IoKind) (s : List ReadEvent),
      read_messages d (fuel + 1) ⟨u, ReadEvent.fail k :: s⟩ =
        ReadOutcome.failed (.ioError k) ⟨u, s⟩) ∧
    (∀ (M : Type) (d : List Nat → Except EncodeError (M × Nat)) (fuel : Nat) (u : List Nat),
      parse d u = ParseOut.ok ([] : List M) u →
      read_messages d fuel ⟨u, []⟩ = ReadOutcome.hang) := by
  constructor
  · intro M d fuel u k s
    exact readLoop_succ_fail d fuel u k s
  · intro M d fuel u hp
    exact readLoop_eof_diverges d fuel u hp

/-- Witness for the amended claim C6 on concrete inputs. -/
theorem transport_error_fails_eof_loops_witness :
    read_messages dNever 1 ⟨[], [ReadEvent.fail (IoKind.otherKind 5)]⟩ =
      ReadOutcome.failed (.ioError (.otherKind 5)) ⟨[], []⟩ ∧
    read_messages dNever 3 ⟨[], []⟩ = ReadOutcome.hang :=
  ⟨transport_error_fails_eof_loops.1 Nat dNever 0 [] (.otherKind 5) [],
   transport_error_fails_eof_loops.2 Nat dNever 3 [] rfl⟩

lemma parseGo_of_errChain {M : Type} (d : List Nat → Except EncodeError (M × Nat))
    (sane : SaneDecoder d) :
    ∀ (fuel : Nat) (buf : List Nat) (acc ms : List M) (rest : List Nat) (e : EncodeError),
      ErrChain d buf ms rest e → buf.length ≤ fuel →
      parseGo d fuel buf acc = .failed e rest := by
  intro fuel
  induction fuel with
  | zero =>
    intro buf acc ms rest e hch hle
    have hbuf : buf = [] := List.length_eq_zero.mp (Nat.le_zero.mp hle)
    subst hbuf
    cases hch with
    | stop _ _ hne hd hK => exact absurd rfl hne
    | step _ m k ms2 rest2 e2 hd tail =>
      obtain ⟨hk1, hk2⟩ := sane _ _ _ hd
      simp only [List.length_nil] at hk2
      omega
  | succ n ih =>
    intro buf acc ms rest e hch hle
    cases hch with
    | stop _ _ hne hd hK =>
      cases buf with
      | nil => exact absurd rfl hne
      | cons b bs =>
        rw [parseGo_cons]
        simp only [hd]
        rw [if_neg hK]
    | step _ m k ms2 rest2 e2 hd tail =>
      cases buf with
      | nil =>
        obtain ⟨hk1, hk2⟩ := sane _ _ _ hd
        simp only [List.length_nil] at hk2
        omega
      | cons b bs =>
        rw [parseGo_cons]
        simp only [hd]
        apply ih _ _ _ _ _ tail
        obtain ⟨hk1, hk2⟩ := sane _ _ _ hd
        simp only [List.length_drop, List.length_cons]
        simp only [List.length_cons] at hle hk2
        omega

lemma parse_of_errChain {M : Type} (d : List Nat → Except EncodeError (M × Nat))
    (sane : SaneDecoder d) (buf : List Nat) (ms : List M) (rest : List Nat)
    (e : EncodeError) (hch : ErrChain d buf ms rest e) :
    parse d buf = ParseOut.failed e rest :=
  parseGo_of_errChain d sane buf.length buf [] ms rest e hch le_rfl

/-- Claim C9: when, within a single extraction pass, one or more
messages decode successfully (the non-empty chain ms) and a later decode
attempt reports a malformed error, read_messages returns only the error:
the already-decoded messages of the pass are discarded and never
delivered (a failed outcome carries no messages), and the chain rest,
the buffer with every consumed prefix already dropped from its head,
stands as the residual buffer of the failure state (consumption is not
rolled back on error). -/
theorem malformed_after_success_discards_messages :
    ∀ (M : Type) (d : List Nat → Except EncodeError (M × Nat)), SaneDecoder d →
      ∀ (fuel : Nat) (u c : List Nat) (s : List ReadEvent) (ms : List M)
        (rest : List Nat) (e : EncodeError),
        ErrChain d (u ++ c) ms rest e → ms ≠ [] →
        read_messages d (fuel + 1) ⟨u, ReadEvent.chunk c :: s⟩ =
          ReadOutcome.failed e ⟨rest, s⟩ := by
  intro M d sane fuel u c s ms rest e hch hne
  have hparse := parse_of_errChain d sane (u ++ c) ms rest e hch
  unfold read_messages
  exact readLoop_step_failed d fuel u c s e rest hparse

/-- Witness for claim C9: the chunk 7, 7, 9 decodes two messages (the
two bytes 7), then hits malformed data (the byte 9); the call fails,
delivers neither decoded message, and the residual buffer starts after
the two consumed bytes. -/
theorem malformed_after_success_discards_messages_witness :
    read_messages dFlag 1 ⟨[], [ReadEvent.chunk [7, 7, 9]]⟩ =
      ReadOutcome.failed (.parseFailed "bad data") ⟨[9], []⟩ :=
  malformed_after_success_discards_messages Nat dFlag dFlag_sane 0 [] [7, 7, 9] []
    [7, 7] [9] (.parseFailed "bad data")
    (ErrChain.step _ 7 1 [7] [9] _ rfl
      (ErrChain.step _ 7 1 [] [9] _ rfl
        (ErrChain.stop _ _ (by decide) rfl (by decide))))
    (by simp)

/-- Claim C10: whenever read_messages returns successfully, the residual
pending buffer holds no complete decodable message at its head: it is
either empty or its head decode reports incomplete data. -/
theorem residual_buffer_no_complete_message :
    ∀ (M : Type) (d : List Nat → Except EncodeError (M × Nat)), SaneDecoder d →
      ∀ (fuel : Nat) (st : RState) (msgs : List M) (st2 : RState),
        read_messages d fuel st = .done msgs st2 →
        st2.unparsed = [] ∨ d st2.unparsed = .error (.ioError .unexpectedEof) := by
  intro M d sane fuel st msgs st2 h
  obtain ⟨cs, hcs, hchain⟩ := readLoop_done_chain d sane fuel st msgs st2 h
  exact DecodeChain.rest_spec hchain

/-- Witness for claim C10 on a concrete call. -/
theorem residual_buffer_no_complete_message_witness :
    (([] : List Nat) = [] ∨ dFlag [] = .error (.ioError .unexpectedEof)) :=
  residual_buffer_no_complete_message Nat dFlag dFlag_sane 2
    ⟨[], [ReadEvent.chunk [7]]⟩ [7] ⟨[], []⟩ rfl
